import Mathlib

/-!
Verification development for the Go-WASM runtime bridge in
src/go-runtime.svelte.ts (class ModernGo).  The definitions below are a
shallow embedding of that file; line numbers in comments refer to it.

Modelling conventions:
* JS values are the inductive JSVal.  Non-NaN doubles are carried exactly as
  rationals (the source only compares them with 0 and isNaN, and otherwise
  passes them through bit-exactly, so exact rationals are faithful; the
  negative-zero corner never arises because storeValue routes -0 through the
  handle table exactly like 0).  Host objects, symbols and functions are
  abstract and identified by a natural number; Uint8Array values carry their
  byte contents.
* Guest linear memory is a write log, newest entry first.  Each entry is
  tagged with the base address and the shape the source wrote there
  (8-byte value slot, i64, i32, or single byte).  The fixed ABI offsets of
  the import frames keep differently-shaped fields disjoint, so indexing by
  base address is faithful for the frames the theorems talk about; reading
  an address that was never written yields the zero of the requested shape,
  matching freshly zeroed wasm memory.
* A value slot records either the non-NaN double written by setFloat64, or
  the pair written by the two setUint32 calls of the NaN-boxing path
  (high word 0x7ff80000 OR typeFlag, low word id).  The boxed bit pattern is
  always a NaN and never compares equal to 0, which is all loadValue
  inspects before reading the low 32 bits.
* JS arrays indexed by handle id (_values, _goRefCounts) are modelled as a
  function plus a length (JsArr); assignment beyond the length grows the
  array and holes read back as the filler (undefined for _values, and for
  _goRefCounts a NaN refcount, since arithmetic on an undefined element
  yields NaN in JS).  Refcounts are Infinity for the permanent sentinels.
* The dynamic host object model (Reflect.get / Reflect.apply /
  Reflect.construct / the .length read) is parameterised by a HostSem
  record: the bridge code is embedded exactly, while the behaviour of the
  arbitrary host object space it calls into is a parameter.  stdSem is one
  admissible host semantics used for concrete witnesses.
* An import that lets a JS exception escape (no try/catch in the source) is
  modelled with Except: .error e is an uncaught host-level exception
  carrying the thrown value.  Imports that catch internally are total.
* Side effects on globalThis (the stray sp assignments, deleting _inst/go)
  and the reactive debug state are outside the model; browser timer handles
  are identified with the callback id that owns them.
-/

set_option linter.unusedVariables false

namespace ModernWasm

/-- JS values crossing the bridge. -/
inductive JSVal where
  | undefV
  | nullV
  | boolV (b : Bool)
  | nanV
  | num (q : ℚ)
  | str (s : String)
  | sym (n : Nat)
  | fn (n : Nat)
  | obj (n : Nat)
  | u8 (data : List Nat)
  | globalObj
  | bridge
deriving DecidableEq, Repr

/-- The switch on typeof in storeValue (lines 413-429): objects (including
Uint8Array values, the global object and the bridge, but not null) tag 1,
strings 2, symbols 3, functions 4, everything else 0. -/
def typeFlag : JSVal → Nat
  | .obj _ => 1
  | .u8 _ => 1
  | .globalObj => 1
  | .bridge => 1
  | .str _ => 2
  | .sym _ => 3
  | .fn _ => 4
  | _ => 0

/-- A _goRefCounts entry: Infinity for sentinels, an ordinary number, or NaN
(the result of ++ or -- on an undefined array element). -/
inductive RefCount where
  | inf
  | fin (n : Int)
  | nanRC
deriving DecidableEq, Repr

def incRC : RefCount → RefCount
  | .inf => .inf
  | .fin n => .fin (n + 1)
  | .nanRC => .nanRC

def decRC : RefCount → RefCount
  | .inf => .inf
  | .fin n => .fin (n - 1)
  | .nanRC => .nanRC

/-- Contents of an 8-byte value slot: exactly the two write shapes used by
storeValue.  float q is setFloat64 with a non-NaN double (only 0 or nonzero
non-NaN values reach that call); boxed tag lo is the NaN-boxing pair of
setUint32 writes, whose getFloat64 readback is a NaN bit pattern. -/
inductive Slot where
  | float (q : ℚ)
  | boxed (tag : Nat) (lo : Nat)
deriving DecidableEq, Repr

/-- One logged write into guest memory, tagged by shape. -/
inductive MemVal where
  | slot (s : Slot)
  | byte (b : Nat)
  | i64 (v : Int)
  | i32 (v : Int)
deriving DecidableEq, Repr

/-- Guest linear memory as a write log, newest first. -/
abbrev Mem := List (Nat × MemVal)

def writeMem (m : Mem) (a : Nat) (v : MemVal) : Mem := (a, v) :: m

def readCell (m : Mem) (a : Nat) : Option MemVal :=
  (m.find? (fun p => decide (p.1 = a))).map (fun p => p.2)

def readSlot (m : Mem) (a : Nat) : Slot :=
  match readCell m a with
  | some (.slot s) => s
  | _ => .float 0

def readByte (m : Mem) (a : Nat) : Nat :=
  match readCell m a with
  | some (.byte b) => b
  | _ => 0

def readI64 (m : Mem) (a : Nat) : Int :=
  match readCell m a with
  | some (.i64 v) => v
  | _ => 0

def readI32 (m : Mem) (a : Nat) : Int :=
  match readCell m a with
  | some (.i32 v) => v
  | _ => 0

/-- Write a run of consecutive bytes (Uint8Array.set into guest memory). -/
def writeBytes (m : Mem) (a : Nat) : List Nat → Mem
  | [] => m
  | b :: rest => writeBytes (writeMem m a (.byte b)) (a + 1) rest

def readBytes (m : Mem) (a len : Nat) : List Nat :=
  (List.range len).map (fun i => readByte m (a + i))

/-- A JS array indexed by handle ids: contents as a total function plus the
current length.  Reads past the length give the filler (what JS reads from a
hole); assignment at index i grows length to at least i+1. -/
structure JsArr (α : Type) where
  f : Nat → α
  length : Nat

def JsArr.get {α} (a : JsArr α) (i : Nat) : α := a.f i

def JsArr.set {α} (a : JsArr α) (i : Nat) (v : α) : JsArr α :=
  ⟨fun j => if j = i then v else a.f j, max a.length (i + 1)⟩

def JsArr.init {α} (l : List α) (filler : α) : JsArr α :=
  ⟨fun i => l.getD i filler, l.length⟩

/-- The single pending host-to-guest callback record built by
_makeFuncWrapper (line 347). -/
structure PendingEvent where
  id : Nat
  recv : JSVal
  args : List JSVal
deriving DecidableEq, Repr

/-- What a call to _resume (lines 332-342) does before any guest code runs:
either it throws because the program already exited, or it enters the guest
resume export. -/
inductive ResumeOutcome where
  | threwAlreadyExited
  | invokedGuest
deriving DecidableEq, Repr

/-- The run-lifecycle promise: _resolveExitPromise is undefined before run,
then pending, then resolved (first resolution wins; later calls are no-ops). -/
inductive ExitPromise where
  | noneYet
  | pending
  | resolved (code : Option Int)
deriving DecidableEq, Repr

def resolveExit (p : ExitPromise) (code : Option Int) : ExitPromise :=
  match p with
  | .pending => .resolved code
  | .noneYet => .noneYet
  | .resolved x => .resolved x

/-- The mutable state of one ModernGo bridge instance. -/
structure GoState where
  values : JsArr JSVal
  goRefCounts : JsArr RefCount
  ids : List (JSVal × Nat)
  idPool : List Nat
  mem : Mem
  exited : Bool
  pendingEvent : Option PendingEvent
  scheduledTimeouts : List Nat
  nextCallbackTimeoutID : Nat
  cancelledHandles : List Nat
  exitPromise : ExitPromise
  resumeLog : List ResumeOutcome

/-- The seven permanent sentinel values seeded at construction (line 229). -/
def sentinelList : List JSVal :=
  [.nanV, .num 0, .nullV, .boolV true, .boolV false, .globalObj, .bridge]

def sentinel (i : Nat) : JSVal := sentinelList.getD i .undefV

/-- ModernGo constructor state (lines 212-251): sentinel values at ids 0-6
with infinite refcounts, the reverse map pre-seeded for ids 1-6 (NaN is
intercepted before any map lookup, so it has no map entry), empty pool,
next timer id 1. -/
def initState : GoState where
  values := JsArr.init sentinelList .undefV
  goRefCounts := JsArr.init (List.replicate 7 .inf) .nanRC
  ids := [(.num 0, 1), (.nullV, 2), (.boolV true, 3), (.boolV false, 4),
          (.globalObj, 5), (.bridge, 6)]
  idPool := []
  mem := []
  exited := false
  pendingEvent := none
  scheduledTimeouts := []
  nextCallbackTimeoutID := 1
  cancelledHandles := []
  exitPromise := .noneYet
  resumeLog := []

/-- Map.get on _ids (SameValueZero on our value type is plain equality). -/
def lookupId (m : List (JSVal × Nat)) (v : JSVal) : Option Nat :=
  (m.find? (fun p => decide (p.1 = v))).map (fun p => p.2)

/-- Map.set on _ids: replace the entry if the key exists, else append. -/
def insertId (m : List (JSVal × Nat)) (v : JSVal) (id : Nat) : List (JSVal × Nat) :=
  if (m.find? (fun p => decide (p.1 = v))).isSome then
    m.map (fun p => if p.1 = v then (v, id) else p)
  else m ++ [(v, id)]

/-- Map.delete on _ids (keys are unique in every reachable map). -/
def eraseId (m : List (JSVal × Nat)) (v : JSVal) : List (JSVal × Nat) :=
  m.eraseP (fun p => decide (p.1 = v))

/-- Array.prototype.pop on _idPool: take from the end; undefined on empty. -/
def poolPop (l : List Nat) : Option Nat × List Nat :=
  match l.getLast? with
  | none => (none, l)
  | some x => (some x, l.dropLast)

/-- The handle-allocation core of storeValue (lines 402-412): look the value
up in _ids; on a miss pop a recycled id (or take _values.length), store the
value and a zero refcount and register the reverse mapping; then the
unconditional refcount increment. -/
def intern (st : GoState) (v : JSVal) : GoState × Nat :=
  match lookupId st.ids v with
  | some id =>
      ({ st with goRefCounts := st.goRefCounts.set id (incRC (st.goRefCounts.get id)) }, id)
  | none =>
      let pp := poolPop st.idPool
      let id := pp.1.getD st.values.length
      let st1 := { st with
        values := st.values.set id v,
        goRefCounts := st.goRefCounts.set id (.fin 0),
        ids := insertId st.ids v id,
        idPool := pp.2 }
      ({ st1 with goRefCounts := st1.goRefCounts.set id (incRC (st1.goRefCounts.get id)) }, id)

/-- The table lookup _values[id] (line 381); a missing index reads undefined. -/
def resolve (st : GoState) (id : Nat) : JSVal := st.values.get id

/-- loadValue (lines 371-382): read the slot as a double; the bit pattern of
0 decodes to undefined, any other non-NaN pattern is the number itself, and
a NaN pattern is a handle whose id is the low 32 bits. -/
def loadValue (st : GoState) (addr : Nat) : JSVal :=
  match readSlot st.mem addr with
  | .float q => if q = 0 then .undefV else .num q
  | .boxed _ lo => resolve st lo

/-- The reference branch of storeValue (lines 402-431): intern the value and
write the NaN-boxed slot; setUint32 keeps only the low 32 bits of the id. -/
def storeRefValue (st : GoState) (addr : Nat) (v : JSVal) : GoState :=
  let r := intern st v
  { r.1 with mem := writeMem r.1.mem addr (.slot (.boxed (typeFlag v) (r.2 % 2 ^ 32))) }

/-- storeValue (lines 384-432).  Nonzero non-NaN numbers are written as raw
doubles; NaN is written as the boxed pair (nanHead, 0) without touching the
table; undefined is the double 0; everything else (including the number 0)
goes through the handle table. -/
def storeValue (st : GoState) (addr : Nat) (v : JSVal) : GoState :=
  match v with
  | .num q =>
      if q = 0 then storeRefValue st addr (.num q)
      else { st with mem := writeMem st.mem addr (.slot (.float q)) }
  | .nanV => { st with mem := writeMem st.mem addr (.slot (.boxed 0 0)) }
  | .undefV => { st with mem := writeMem st.mem addr (.slot (.float 0)) }
  | v => storeRefValue st addr v

/-- finalizeRef body after the id read (lines 530-540): decrement, and at
exactly zero clear the slot to null, drop the reverse mapping and recycle
the id. -/
def finalizeRefCore (st : GoState) (id : Nat) : GoState :=
  let rc := decRC (st.goRefCounts.get id)
  let st1 := { st with goRefCounts := st.goRefCounts.set id rc }
  if rc = .fin 0 then
    let v := st1.values.get id
    { st1 with
      values := st1.values.set id .nullV,
      ids := eraseId st1.ids v,
      idPool := st1.idPool ++ [id] }
  else st1

/-- finalizeRef (lines 530-540): the released id is the low word of the
argument slot. -/
def finalizeRef (st : GoState) (sp : Nat) : GoState :=
  finalizeRefCore st (match readSlot st.mem (sp + 8) with
    | .boxed _ lo => lo
    | .float _ => 0)

/-- wasmExit (lines 453-463): read the code, mark the instance exited and
resolve the lifecycle promise with the code.  The scheduled-timer map is not
touched.  (The globalThis deletions and reactive flags are outside the
model.) -/
def wasmExit (st : GoState) (sp : Nat) : GoState :=
  let code := readI32 st.mem (sp + 8)
  { st with
    exited := true,
    exitPromise := resolveExit st.exitPromise (some code) }

/-- scheduleTimeout (lines 500-513): allocate the next callback id, register
the browser timer under it (the browser timer handle is identified with the id; the
delay only parameterises the real clock) and report the id at sp+16. -/
def scheduleTimeout (st : GoState) (sp : Nat) : GoState :=
  let id := st.nextCallbackTimeoutID
  { st with
    nextCallbackTimeoutID := id + 1,
    scheduledTimeouts := st.scheduledTimeouts ++ [id],
    mem := writeMem st.mem (sp + 16) (.i32 id) }

/-- clearTimeout import (lines 516-521): cancel the browser timer stored
under the id, if any, then delete the map entry. -/
def clearTimeoutImp (st : GoState) (sp : Nat) : GoState :=
  let id := (readI32 st.mem (sp + 8)).toNat
  { st with
    cancelledHandles :=
      if id ∈ st.scheduledTimeouts then st.cancelledHandles ++ [id]
      else st.cancelledHandles,
    scheduledTimeouts := st.scheduledTimeouts.erase id }

/-- One call of _resume (lines 332-342): throw if already exited, otherwise
enter the guest resume export.  Guest-side effects of the export are outside
the model; the post-call re-resolution of the promise only fires when the
guest itself exits during the call, which the model leaves external. -/
def resumeStep (st : GoState) : GoState :=
  if st.exited then { st with resumeLog := st.resumeLog ++ [.threwAlreadyExited] }
  else { st with resumeLog := st.resumeLog ++ [.invokedGuest] }

/-- The setTimeout callback registered by scheduleTimeout is exactly
() => this._resume() (lines 506-508): firing a timer only attempts a
resume and does not touch the scheduled-timer map. -/
def fireTimer (st : GoState) : GoState := resumeStep st

/-- The function produced by _makeFuncWrapper (lines 344-352): fill
_pendingEvent with the new record, unconditionally overwriting whatever was
there, then call _resume. -/
def funcWrapperCall (st : GoState) (id : Nat) (recv : JSVal) (args : List JSVal) : GoState :=
  resumeStep { st with pendingEvent := some ⟨id, recv, args⟩ }

/-- UTF-8 encoding of one code point (an executable TextEncoder model,
needed because the builtin byte-array codec does not reduce in the kernel). -/
def utf8EncodeCharN (c : Char) : List Nat :=
  let n := c.toNat
  if n < 0x80 then [n]
  else if n < 0x800 then [0xC0 + n / 64, 0x80 + n % 64]
  else if n < 0x10000 then
    [0xE0 + n / 4096, 0x80 + (n / 64) % 64, 0x80 + n % 64]
  else
    [0xF0 + n / 262144, 0x80 + (n / 4096) % 64, 0x80 + (n / 64) % 64, 0x80 + n % 64]

/-- TextDecoder model: decode well-formed UTF-8 byte runs one byte at a
time (pending counts the continuation bytes still expected, acc the code
point so far; malformed tails decode to nothing).  The frames in this
development only carry well-formed names. -/
def utf8DecodeAux : List Nat → Nat → Nat → List Char
  | [], _, _ => []
  | b :: rest, 0, _ =>
      if b < 0x80 then Char.ofNat b :: utf8DecodeAux rest 0 0
      else if b < 0xE0 then utf8DecodeAux rest 1 (b % 32)
      else if b < 0xF0 then utf8DecodeAux rest 2 (b % 16)
      else utf8DecodeAux rest 3 (b % 8)
  | b :: rest, 1, acc => Char.ofNat (acc * 64 + b % 64) :: utf8DecodeAux rest 0 0
  | b :: rest, pending + 1, acc => utf8DecodeAux rest pending (acc * 64 + b % 64)

def utf8Decode (l : List Nat) : String := String.mk (utf8DecodeAux l 0 0)

/-- loadString (lines 434-438): a 16-byte header of pointer and length,
then decode that many guest bytes as UTF-8. -/
def loadString (st : GoState) (addr : Nat) : String :=
  let saddr := (readI64 st.mem addr).toNat
  let len := (readI64 st.mem (addr + 8)).toNat
  utf8Decode (readBytes st.mem saddr len)

/-- loadSliceOfValues (lines 440-448): a 16-byte header of pointer and
length, then one value slot every 8 bytes. -/
def loadSliceOfValues (st : GoState) (addr : Nat) : List JSVal :=
  let array := (readI64 st.mem addr).toNat
  let len := (readI64 st.mem (addr + 8)).toNat
  (List.range len).map (fun i => loadValue st (array + i * 8))

/-- The dynamic object-model operations the imports delegate to.  Each
returns .ok on success or .error with the thrown value.  The bridge code is
embedded exactly; the host object space it reflects into is this
parameter. -/
structure HostSem where
  reflectGet : JSVal → String → Except JSVal JSVal
  reflectApply : JSVal → JSVal → List JSVal → Except JSVal JSVal
  reflectConstruct : JSVal → List JSVal → Except JSVal JSVal
  dotLength : JSVal → Except JSVal Int

/-- One admissible host semantics, used for concrete witnesses: property
access on undefined or null throws, applying or constructing a non-function
throws, and reading a length off a value with no length field throws at the
BigInt conversion.  Opaque objects are treated as plain property-less
objects. -/
def stdSem : HostSem where
  reflectGet v _name :=
    match v with
    | .undefV => .error (.str "TypeError")
    | .nullV => .error (.str "TypeError")
    | _ => .ok .undefV
  reflectApply f _this _args :=
    match f with
    | .fn _ => .ok .undefV
    | _ => .error (.str "TypeError")
  reflectConstruct f _args :=
    match f with
    | .fn n => .ok (.obj n)
    | _ => .error (.str "TypeError")
  dotLength v :=
    match v with
    | .str s => .ok s.length
    | .u8 l => .ok l.length
    | .fn _ => .ok 0
    | _ => .error (.str "TypeError")

/-- The body of the try block of valueCall (lines 583-587): resolve the
receiver, fetch the method, load the arguments and apply. -/
def callAttempt (H : HostSem) (st : GoState) (sp : Nat) : Except JSVal JSVal :=
  match H.reflectGet (loadValue st (sp + 8)) (loadString st (sp + 16)) with
  | .error e => .error e
  | .ok m => H.reflectApply m (loadValue st (sp + 8)) (loadSliceOfValues st (sp + 32))

/-- The body of the try block of valueInvoke (lines 601-604): apply the
value itself with receiver undefined. -/
def invokeAttempt (H : HostSem) (st : GoState) (sp : Nat) : Except JSVal JSVal :=
  H.reflectApply (loadValue st (sp + 8)) .undefV (loadSliceOfValues st (sp + 16))

/-- The body of the try block of valueNew (lines 618-621). -/
def newAttempt (H : HostSem) (st : GoState) (sp : Nat) : Except JSVal JSVal :=
  H.reflectConstruct (loadValue st (sp + 8)) (loadSliceOfValues st (sp + 16))

/-- valueCall (lines 581-596): on success store the result at sp+56 and the
flag byte 1 at sp+64; a thrown value is caught, stored in the same slot, and
the flag byte is 0.  Never lets the exception escape. -/
def valueCall (H : HostSem) (st : GoState) (sp : Nat) : Except JSVal GoState :=
  match callAttempt H st sp with
  | .ok result =>
      let st1 := storeValue st (sp + 56) result
      .ok { st1 with mem := writeMem st1.mem (sp + 64) (.byte 1) }
  | .error e =>
      let st1 := storeValue st (sp + 56) e
      .ok { st1 with mem := writeMem st1.mem (sp + 64) (.byte 0) }

/-- valueInvoke (lines 599-613): result slot sp+40, flag byte sp+48. -/
def valueInvoke (H : HostSem) (st : GoState) (sp : Nat) : Except JSVal GoState :=
  match invokeAttempt H st sp with
  | .ok result =>
      let st1 := storeValue st (sp + 40) result
      .ok { st1 with mem := writeMem st1.mem (sp + 48) (.byte 1) }
  | .error e =>
      let st1 := storeValue st (sp + 40) e
      .ok { st1 with mem := writeMem st1.mem (sp + 48) (.byte 0) }

/-- valueNew (lines 616-630): result slot sp+40, flag byte sp+48. -/
def valueNew (H : HostSem) (st : GoState) (sp : Nat) : Except JSVal GoState :=
  match newAttempt H st sp with
  | .ok result =>
      let st1 := storeValue st (sp + 40) result
      .ok { st1 with mem := writeMem st1.mem (sp + 48) (.byte 1) }
  | .error e =>
      let st1 := storeValue st (sp + 40) e
      .ok { st1 with mem := writeMem st1.mem (sp + 48) (.byte 0) }

/-- valueGet (lines 549-554): a bare Reflect.get followed by storeValue of
the result at sp+32.  There is no try/catch and no flag byte: a throw from
the property access escapes to the host. -/
def valueGet (H : HostSem) (st : GoState) (sp : Nat) : Except JSVal GoState :=
  match H.reflectGet (loadValue st (sp + 8)) (loadString st (sp + 16)) with
  | .ok result => .ok (storeValue st (sp + 32) result)
  | .error e => .error e

/-- valueLength (lines 633-636): a bare BigInt(loadValue(sp+8).length)
written as an i64 at sp+16.  No try/catch, no flag: a value without a
usable length makes the read or the BigInt conversion throw, and the
exception escapes to the host. -/
def valueLength (H : HostSem) (st : GoState) (sp : Nat) : Except JSVal GoState :=
  match H.dotLength (loadValue st (sp + 8)) with
  | .ok n => .ok { st with mem := writeMem st.mem (sp + 16) (.i64 n) }
  | .error e => .error e

/-- copyBytesToGo (lines 661-673): destination is guest memory described by
pointer sp+8 and length sp+16, source is the host value at slot sp+32.  A
non-byte-array source writes only the failure flag at sp+48 and returns;
otherwise min(dst.length, src.length) bytes are copied, the count is
written as an i64 at sp+40 and the success flag at sp+48. -/
def copyBytesToGo (st : GoState) (sp : Nat) : Except JSVal GoState :=
  let dstPtr := (readI64 st.mem (sp + 8)).toNat
  let dstLen := (readI64 st.mem (sp + 16)).toNat
  match loadValue st (sp + 32) with
  | .u8 data =>
      let toCopy := min dstLen data.length
      let st1 := { st with mem := writeBytes st.mem dstPtr (data.take toCopy) }
      let st2 := { st1 with mem := writeMem st1.mem (sp + 40) (.i64 toCopy) }
      .ok { st2 with mem := writeMem st2.mem (sp + 48) (.byte 1) }
  | _ => .ok { st with mem := writeMem st.mem (sp + 48) (.byte 0) }

/-- copyBytesToJS (lines 676-688): destination is the host value at slot
sp+8, source is guest memory at pointer sp+16 with length sp+24.  The
returned list is the destination contents after the in-place
dst.set(src.subarray(0, toCopy)) (none when the type check fails and only
the failure flag is written). -/
def copyBytesToJS (st : GoState) (sp : Nat) : Except JSVal (GoState × Option (List Nat)) :=
  let srcPtr := (readI64 st.mem (sp + 16)).toNat
  let srcLen := (readI64 st.mem (sp + 24)).toNat
  match loadValue st (sp + 8) with
  | .u8 data =>
      let src := readBytes st.mem srcPtr srcLen
      let toCopy := min data.length srcLen
      let newDst := src.take toCopy ++ data.drop toCopy
      let st1 := { st with mem := writeMem st.mem (sp + 40) (.i64 toCopy) }
      .ok ({ st1 with mem := writeMem st1.mem (sp + 48) (.byte 1) }, some newDst)
  | _ => .ok ({ st with mem := writeMem st.mem (sp + 48) (.byte 0) }, none)

/-- TextEncoder().encode(str + the NUL terminator) in strPtr (line 287). -/
def strBytes (s : String) : List Nat :=
  s.data.flatMap utf8EncodeCharN ++ [0]

/-- The 8-byte alignment step of strPtr (lines 290-292). -/
def padTo8 (o : Nat) : Nat := if o % 8 = 0 then o else o + (8 - o % 8)

/-- The byte writes and pointers produced by mapping strPtr over argv
(lines 284-301), starting at the fixed scratch offset. -/
structure ArgLayout where
  writes : List (Nat × List Nat)
  argvPtrs : List Nat
  offsetAfter : Nat

def layoutArgs (offset : Nat) : List String → ArgLayout
  | [] => ⟨[], [], offset⟩
  | s :: rest =>
      let bytes := strBytes s
      let r := layoutArgs (padTo8 (offset + bytes.length)) rest
      ⟨(offset, bytes) :: r.writes, offset :: r.argvPtrs, r.offsetAfter⟩

/-- Perform the byte writes of an argument layout. -/
def writeArgWrites (m : Mem) : List (Nat × List Nat) → Mem
  | [] => m
  | (a, bs) :: rest => writeArgWrites (writeBytes m a bs) rest

/-- What run hands back besides the state: the two integers actually passed
to the guest entry export, and the computed argument count. -/
structure RunResult where
  state : GoState
  entryArgs : Nat × Nat
  argc : Nat

/-- run (lines 254-319) up to the point where the caller suspends on the
exit promise: bind the memory view to the instance memory, re-seed the seven
sentinel slots, write every argv string zero-terminated starting at offset
4096, store argc as an i64 at the offset after the strings and the pointer
to the first string 8 bytes later, create the fresh (pending) exit promise,
and invoke the entry export with the pair (offset, offset + 8) - the two
ADDRESSES - as its arguments (line 316). -/
def runGo (st : GoState) (instMem : Mem) (argv : List String) : RunResult :=
  let st := { st with mem := instMem }
  let st := { st with values :=
    ((((((st.values.set 0 .nanV).set 1 (.num 0)).set 2 .nullV).set 3
      (.boolV true)).set 4 (.boolV false)).set 5 .globalObj).set 6 .bridge }
  let L := layoutArgs 4096 argv
  let st := { st with mem := writeArgWrites st.mem L.writes }
  let offset := L.offsetAfter
  let argc := argv.length
  let st := { st with mem := writeMem st.mem offset (.i64 argc) }
  let st := { st with mem := writeMem st.mem (offset + 8) (.i64 (L.argvPtrs.headD 0)) }
  let st := { st with exitPromise := .pending }
  ⟨st, (offset, offset + 8), argc⟩

/-- The operations the invariance claims range over: every modelled way the
bridge state can change after construction. -/
inductive Op where
  | store (addr : Nat) (v : JSVal)
  | release (id : Nat)
  | schedule (sp : Nat)
  | clearT (sp : Nat)
  | fire
  | exitI (sp : Nat)
  | wrapper (id : Nat) (recv : JSVal) (args : List JSVal)

def step (st : GoState) : Op → GoState
  | .store addr v => storeValue st addr v
  | .release id => finalizeRefCore st id
  | .schedule sp => scheduleTimeout st sp
  | .clearT sp => clearTimeoutImp st sp
  | .fire => fireTimer st
  | .exitI sp => wasmExit st sp
  | .wrapper id recv args => funcWrapperCall st id recv args

def applyOps (st : GoState) (ops : List Op) : GoState := ops.foldl step st

/-! ### Basic lemmas about the memory log and the JS arrays -/

theorem readCell_write_self (m : Mem) (a : Nat) (v : MemVal) :
    readCell (writeMem m a v) a = some v := by
  simp [readCell, writeMem, List.find?_cons]

theorem readCell_write_ne (m : Mem) (a b : Nat) (v : MemVal) (h : b ≠ a) :
    readCell (writeMem m b v) a = readCell m a := by
  simp [readCell, writeMem, List.find?_cons, h]

theorem readSlot_write_self (m : Mem) (a : Nat) (s : Slot) :
    readSlot (writeMem m a (.slot s)) a = s := by
  simp [readSlot, readCell_write_self]

theorem readSlot_write_ne (m : Mem) (a b : Nat) (v : MemVal) (h : b ≠ a) :
    readSlot (writeMem m b v) a = readSlot m a := by
  simp [readSlot, readCell_write_ne m a b v h]

theorem readByte_write_self (m : Mem) (a : Nat) (b : Nat) :
    readByte (writeMem m a (.byte b)) a = b := by
  simp [readByte, readCell_write_self]

theorem readByte_write_ne (m : Mem) (a b : Nat) (v : MemVal) (h : b ≠ a) :
    readByte (writeMem m b v) a = readByte m a := by
  simp [readByte, readCell_write_ne m a b v h]

theorem readI64_write_self (m : Mem) (a : Nat) (v : Int) :
    readI64 (writeMem m a (.i64 v)) a = v := by
  simp [readI64, readCell_write_self]

theorem readI64_write_ne (m : Mem) (a b : Nat) (v : MemVal) (h : b ≠ a) :
    readI64 (writeMem m b v) a = readI64 m a := by
  simp [readI64, readCell_write_ne m a b v h]

theorem readCell_writeBytes_lt (l : List Nat) (m : Mem) (a x : Nat) (h : x < a) :
    readCell (writeBytes m a l) x = readCell m x := by
  induction l generalizing m a with
  | nil => rfl
  | cons b rest ih =>
      rw [writeBytes, ih (writeMem m a (.byte b)) (a + 1) (by omega),
        readCell_write_ne m x a _ (by omega)]

theorem readByte_writeBytes (l : List Nat) (m : Mem) (a i : Nat) (h : i < l.length) :
    readByte (writeBytes m a l) (a + i) = l.getD i 0 := by
  induction l generalizing m a i with
  | nil => simp at h
  | cons b rest ih =>
      rw [writeBytes]
      cases i with
      | zero =>
          have : readCell (writeBytes (writeMem m a (.byte b)) (a + 1) rest) a
              = readCell (writeMem m a (.byte b)) a :=
            readCell_writeBytes_lt rest _ _ _ (by omega)
          simp only [Nat.add_zero, readByte, this, readCell_write_self, List.getD]
          rfl
      | succ j =>
          have hj : j < rest.length := by simpa using h
          have := ih (writeMem m a (.byte b)) (a + 1) j hj
          have harr : a + (j + 1) = (a + 1) + j := by omega
          rw [harr, this]
          rfl

theorem readCell_writeBytes_ge (l : List Nat) (m : Mem) (a x : Nat) (h : a + l.length ≤ x) :
    readCell (writeBytes m a l) x = readCell m x := by
  induction l generalizing m a with
  | nil => rfl
  | cons b rest ih =>
      rw [writeBytes, ih (writeMem m a (.byte b)) (a + 1) (by simp at h; omega),
        readCell_write_ne m x a _ (by simp at h; omega)]

theorem JsArr.get_set_self {α} (a : JsArr α) (i : Nat) (v : α) :
    (a.set i v).get i = v := by
  simp [JsArr.get, JsArr.set]

theorem JsArr.get_set_ne {α} (a : JsArr α) (i j : Nat) (v : α) (h : j ≠ i) :
    (a.set i v).get j = a.get j := by
  simp [JsArr.get, JsArr.set, h]

theorem JsArr.set_set {α} (a : JsArr α) (i : Nat) (v w : α) :
    (a.set i v).set i w = a.set i w := by
  cases a with
  | mk f len =>
      simp only [JsArr.set, JsArr.mk.injEq]
      constructor
      · funext j
        by_cases hj : j = i <;> simp [hj]
      · omega

theorem JsArr.set_get_self {α} (a : JsArr α) (i : Nat) (h : i < a.length) :
    a.set i (a.get i) = a := by
  cases a with
  | mk f len =>
      simp only [JsArr.set, JsArr.get, JsArr.mk.injEq]
      constructor
      · funext j
        by_cases hj : j = i <;> simp [hj]
      · simp at h; omega

theorem JsArr.length_set {α} (a : JsArr α) (i : Nat) (v : α) :
    (a.set i v).length = max a.length (i + 1) := rfl

theorem lookupId_append_of_none (m : List (JSVal × Nat)) (v : JSVal) (id : Nat)
    (h : lookupId m v = none) :
    lookupId (m ++ [(v, id)]) v = some id := by
  have h' : m.find? (fun p => decide (p.1 = v)) = none := by
    simpa [lookupId, Option.map_eq_none'] using h
  unfold lookupId
  rw [List.find?_append, h']
  simp [List.find?_cons]

theorem eraseId_append_of_none (m : List (JSVal × Nat)) (v : JSVal) (id : Nat)
    (h : lookupId m v = none) :
    eraseId (m ++ [(v, id)]) v = m := by
  have h' : m.find? (fun p => decide (p.1 = v)) = none := by
    simpa [lookupId, Option.map_eq_none'] using h
  rw [List.find?_eq_none] at h'
  rw [eraseId, List.eraseP_append_right _ (by simpa using h')]
  simp [List.eraseP_cons]

theorem mem_of_poolPop (l : List Nat) (i : Nat) (h : (poolPop l).1 = some i) :
    i ∈ l := by
  unfold poolPop at h
  cases hl : l.getLast? with
  | none => rw [hl] at h; simp at h
  | some x =>
      rw [hl] at h
      simp at h
      subst h
      cases l with
      | nil => simp at hl
      | cons y ys =>
          rw [List.getLast?_eq_getLast _ (by simp)] at hl
          simp at hl
          rw [← hl]
          exact List.getLast_mem _

theorem mem_of_poolPop_rest (l : List Nat) (i : Nat) (h : i ∈ (poolPop l).2) :
    i ∈ l := by
  unfold poolPop at h
  cases hl : l.getLast? with
  | none => rw [hl] at h; exact h
  | some x => rw [hl] at h; exact (List.dropLast_sublist l).subset h

/-! ### Consistency of the handle table -/

/-- Facts true of every reachable table: the reverse map agrees with the
value array and only holds 32-bit ids, pooled ids are in range, the array
has not overflowed 32-bit ids, and slot 0 still holds the NaN sentinel. -/
def TableOK (st : GoState) : Prop :=
  (∀ v i, lookupId st.ids v = some i → resolve st i = v ∧ i < 2 ^ 32) ∧
  (∀ i, i ∈ st.idPool → i < st.values.length) ∧
  st.values.length < 2 ^ 32 ∧
  resolve st 0 = .nanV

theorem intern_resolve (st : GoState) (v : JSVal) (h : TableOK st) :
    resolve (intern st v).1 (intern st v).2 = v ∧ (intern st v).2 < 2 ^ 32 := by
  obtain ⟨hmap, hpool, hlen, hnan⟩ := h
  unfold intern
  cases hl : lookupId st.ids v with
  | some id =>
      simpa [resolve] using hmap v id hl
  | none =>
      simp only
      constructor
      · simp [resolve, JsArr.get_set_self]
      · cases hp : (poolPop st.idPool).1 with
        | none => simpa [hp] using hlen
        | some j =>
            have := hpool j (mem_of_poolPop _ _ hp)
            simp only [hp, Option.getD_some]
            omega

theorem storeRef_load (st : GoState) (addr : Nat) (v : JSVal) (h : TableOK st) :
    loadValue (storeRefValue st addr v) addr = v := by
  have hspec := intern_resolve st v h
  unfold storeRefValue loadValue
  simp only [readSlot_write_self, Nat.mod_eq_of_lt hspec.2]
  exact hspec.1

/-- Store-then-load round trip for every value, on any consistent table. -/
theorem store_load_roundtrip (st : GoState) (addr : Nat) (v : JSVal) (h : TableOK st) :
    loadValue (storeValue st addr v) addr = v := by
  have hnan := h.2.2.2
  cases v with
  | num q =>
      by_cases hq : q = 0
      · subst hq
        simpa [storeValue] using storeRef_load st addr (.num 0) h
      · simp [storeValue, hq, loadValue, readSlot_write_self]
  | undefV => simp [storeValue, loadValue, readSlot_write_self]
  | nanV =>
      simp only [storeValue, loadValue, readSlot_write_self]
      exact hnan
  | nullV => exact storeRef_load st addr _ h
  | boolV b => exact storeRef_load st addr _ h
  | str s => exact storeRef_load st addr _ h
  | sym n => exact storeRef_load st addr _ h
  | fn n => exact storeRef_load st addr _ h
  | obj n => exact storeRef_load st addr _ h
  | u8 d => exact storeRef_load st addr _ h
  | globalObj => exact storeRef_load st addr _ h
  | bridge => exact storeRef_load st addr _ h

theorem tableOK_init : TableOK initState := by
  refine ⟨?_, ?_, by decide, rfl⟩
  · intro v i h
    unfold lookupId at h
    cases hf : initState.ids.find? (fun p => decide (p.1 = v)) with
    | none => rw [hf] at h; simp at h
    | some pr =>
        rw [hf] at h
        simp only [Option.map_some'] at h
        have hp := List.find?_some hf
        have hm := List.mem_of_find?_eq_some hf
        simp only [decide_eq_true_eq] at hp
        simp only [initState, List.mem_cons, List.not_mem_nil, or_false] at hm
        rcases hm with rfl | rfl | rfl | rfl | rfl | rfl <;>
          (cases h; cases hp; exact ⟨by decide, by decide⟩)
  · intro i h
    simp [initState] at h

/-! ### Claim C3 -/

/-- C3: encoding a value into an 8-byte value slot with storeValue and then
decoding the slot with loadValue on the same bridge instance yields a value
observably equal to the original, for each of undefined, 0, -3.5, NaN, any
string and any function value (on any state whose handle table is
consistent, which every reachable state is). -/
theorem c3_slot_roundtrip (st : GoState) (addr : Nat) (h : TableOK st) (v : JSVal)
    (hv : v = .undefV ∨ v = .num 0 ∨ v = .num (-7 / 2) ∨ v = .nanV ∨
      (∃ s, v = .str s) ∨ (∃ n, v = .fn n)) :
    loadValue (storeValue st addr v) addr = v :=
  store_load_roundtrip st addr v h

theorem c3_slot_roundtrip_witness :
    loadValue (storeValue initState 0 (.num (-7 / 2))) 0 = .num (-7 / 2) :=
  c3_slot_roundtrip initState 0 tableOK_init (.num (-7 / 2))
    (Or.inr (Or.inr (Or.inl rfl)))

/-! ### Claim C2: intern, release and the fate of a fully released id -/

/-- k repeated interns of the same value. -/
def internTimes (st : GoState) (v : JSVal) : Nat → GoState
  | 0 => st
  | k + 1 => (intern (internTimes st v k) v).1

/-- k repeated releases of the same id. -/
def releaseTimes (st : GoState) (id : Nat) : Nat → GoState
  | 0 => st
  | k + 1 => finalizeRefCore (releaseTimes st id k) id

theorem intern_fresh (st : GoState) (v : JSVal)
    (hFresh : lookupId st.ids v = none) (hPool : st.idPool = []) :
    intern st v = ({ st with
      values := st.values.set st.values.length v,
      goRefCounts := st.goRefCounts.set st.values.length (.fin 1),
      ids := st.ids ++ [(v, st.values.length)],
      idPool := [] }, st.values.length) := by
  have hfind : st.ids.find? (fun p => decide (p.1 = v)) = none := by
    simpa [lookupId, Option.map_eq_none'] using hFresh
  have h1 : poolPop st.idPool = (none, []) := by rw [hPool]; rfl
  unfold intern
  rw [hFresh, h1]
  simp only [Option.getD_none, insertId, hfind, Option.isSome_none, Bool.false_eq_true,
    if_false, JsArr.get_set_self, JsArr.set_set, incRC]
  norm_num

theorem intern_found (st : GoState) (v : JSVal) (id : Nat)
    (h : lookupId st.ids v = some id) :
    intern st v =
      ({ st with goRefCounts := st.goRefCounts.set id (incRC (st.goRefCounts.get id)) }, id) := by
  unfold intern
  rw [h]

/-- After the first intern of a fresh value and j further interns, only its
refcount has moved. -/
theorem internTimes_state (st : GoState) (v : JSVal)
    (hFresh : lookupId st.ids v = none) (hPool : st.idPool = []) (j : Nat) :
    internTimes st v (j + 1) = { st with
      values := st.values.set st.values.length v,
      goRefCounts := st.goRefCounts.set st.values.length (.fin (1 + j)),
      ids := st.ids ++ [(v, st.values.length)],
      idPool := [] } := by
  induction j with
  | zero =>
      show (intern (internTimes st v 0) v).1 = _
      rw [internTimes, intern_fresh st v hFresh hPool]
      norm_num
  | succ i ih =>
      show (intern (internTimes st v (i + 1)) v).1 = _
      rw [ih, intern_found _ v st.values.length
        (lookupId_append_of_none st.ids v st.values.length hFresh)]
      simp only [JsArr.get_set_self, JsArr.set_set, incRC]
      have : (1 : Int) + i + 1 = 1 + (i + 1) := by ring
      rw [this]
      norm_num

/-- Releasing m < k times only decrements the refcount. -/
theorem releaseTimes_state (st : GoState) (v : JSVal)
    (hFresh : lookupId st.ids v = none) (hPool : st.idPool = []) (k m : Nat)
    (hk : 1 ≤ k) (hm : m ≤ k - 1) :
    releaseTimes (internTimes st v k) st.values.length m = { st with
      values := st.values.set st.values.length v,
      goRefCounts := st.goRefCounts.set st.values.length (.fin ((k : Int) - m)),
      ids := st.ids ++ [(v, st.values.length)],
      idPool := [] } := by
  induction m with
  | zero =>
      rw [releaseTimes]
      obtain ⟨j, rfl⟩ : ∃ j, k = j + 1 := ⟨k - 1, by omega⟩
      rw [internTimes_state st v hFresh hPool j]
      norm_num
      congr 1
      ring_nf
  | succ i ih =>
      rw [releaseTimes, ih (by omega)]
      unfold finalizeRefCore
      simp only [JsArr.get_set_self, decRC]
      rw [if_neg (by
        simp only [RefCount.fin.injEq, ne_eq]
        intro hbad
        omega)]
      simp only [JsArr.set_set]
      congr 2
      push_cast
      ring_nf

/-- The k-th release of a k-times-interned fresh value clears the slot to
null, removes the reverse mapping and recycles the id. -/
theorem releaseTimes_final (st : GoState) (v : JSVal)
    (hFresh : lookupId st.ids v = none) (hPool : st.idPool = []) (k : Nat) (hk : 1 ≤ k) :
    releaseTimes (internTimes st v k) st.values.length k = { st with
      values := (st.values.set st.values.length v).set st.values.length .nullV,
      goRefCounts := st.goRefCounts.set st.values.length (.fin 0),
      ids := st.ids,
      idPool := [st.values.length] } := by
  obtain ⟨j, rfl⟩ : ∃ j, k = j + 1 := ⟨k - 1, by omega⟩
  rw [releaseTimes, releaseTimes_state st v hFresh hPool (j + 1) j hk (by omega)]
  have h1 : ((j + 1 : Nat) : Int) - (j : Nat) = 1 := by omega
  rw [h1]
  unfold finalizeRefCore
  simp only [JsArr.get_set_self, decRC]
  norm_num
  rw [eraseId_append_of_none st.ids v st.values.length hFresh]
  simp [JsArr.set_set]

/-- C2 counterexample: after interning a fresh value once and releasing its
id once, resolving the former id does not fail - the code has no
UnknownHandle (or any other) failure path; the _values lookup is total -
and instead returns the JS value null that finalizeRef left in the cleared
slot. -/
theorem c2_counterexample :
    resolve (finalizeRefCore (intern initState (.str "k")).1
      (intern initState (.str "k")).2) 7 = .nullV := by decide

/-- C2 (amended): resolve(intern(v)) returns v on every consistent table;
and after release has been called on the id exactly as many times as intern
was called for the (initially fresh) value, the table slot is cleared to JS
null, the reverse mapping is removed and the id is pushed onto the free
pool, so a subsequent resolve of the former id returns null rather than
failing with UnknownHandle (no such failure exists in the code). -/
theorem c2_intern_release :
    (∀ st v, TableOK st →
        resolve (intern st v).1 (intern st v).2 = v) ∧
    (∀ st v k, lookupId st.ids v = none → st.idPool = [] → 1 ≤ k →
        resolve (releaseTimes (internTimes st v k) st.values.length k)
            st.values.length = .nullV ∧
        (releaseTimes (internTimes st v k) st.values.length k).idPool
            = [st.values.length]) := by
  constructor
  · intro st v h
    exact (intern_resolve st v h).1
  · intro st v k hFresh hPool hk
    rw [releaseTimes_final st v hFresh hPool k hk]
    exact ⟨by simp [resolve, JsArr.get_set_self], rfl⟩

theorem c2_intern_release_witness :
    resolve (intern initState (.str "x")).1 (intern initState (.str "x")).2 = .str "x" ∧
    resolve (releaseTimes (internTimes initState (.str "x") 2) 7 2) 7 = .nullV := by
  constructor
  · exact c2_intern_release.1 initState (.str "x") tableOK_init
  · exact (c2_intern_release.2 initState (.str "x") 2 (by decide) rfl (by omega)).1

/-! ### Claim C9: stability of the sentinel ids 0-6 -/

/-- The sentinel invariant: slots 0-6 hold the construction-time sentinels
with infinite refcounts, the free pool only ever holds dynamic ids, and the
arrays cover the sentinel range. -/
def SentinelsOK (st : GoState) : Prop :=
  (∀ i, i < 7 → st.values.get i = sentinel i) ∧
  (∀ i, i < 7 → st.goRefCounts.get i = .inf) ∧
  (∀ i, i ∈ st.idPool → 7 ≤ i) ∧
  7 ≤ st.values.length ∧ 7 ≤ st.goRefCounts.length

theorem sentinelsOK_init : SentinelsOK initState := by
  refine ⟨?_, ?_, ?_, by decide, by decide⟩
  · intro i hi
    interval_cases i <;> rfl
  · intro i hi
    interval_cases i <;> rfl
  · intro i h
    simp [initState] at h

theorem intern_sentinels (st : GoState) (v : JSVal) (h : SentinelsOK st) :
    SentinelsOK (intern st v).1 := by
  obtain ⟨hval, hrc, hpool, hvlen, hrclen⟩ := h
  unfold intern
  cases hl : lookupId st.ids v with
  | some id =>
      refine ⟨hval, ?_, hpool, hvlen, ?_⟩
      · intro i hi
        by_cases hii : i = id
        · subst hii
          rw [JsArr.get_set_self, hrc i hi]
          rfl
        · rw [JsArr.get_set_ne _ _ _ _ hii]
          exact hrc i hi
      · simp only [JsArr.length_set]
        omega
  | none =>
      have hid : 7 ≤ (poolPop st.idPool).1.getD st.values.length := by
        cases hp : (poolPop st.idPool).1 with
        | none => simpa using hvlen
        | some j => simpa [hp] using hpool j (mem_of_poolPop _ _ hp)
      refine ⟨?_, ?_, ?_, ?_, ?_⟩
      · intro i hi
        rw [JsArr.get_set_ne _ _ _ _ (by omega)]
        exact hval i hi
      · intro i hi
        rw [JsArr.get_set_ne _ _ _ _ (by omega), JsArr.get_set_ne _ _ _ _ (by omega)]
        exact hrc i hi
      · intro i hi
        exact hpool i (mem_of_poolPop_rest _ _ hi)
      · simp only [JsArr.length_set]
        omega
      · simp only [JsArr.length_set]
        omega

theorem release_sentinels (st : GoState) (id : Nat) (h : SentinelsOK st) :
    SentinelsOK (finalizeRefCore st id) := by
  obtain ⟨hval, hrc, hpool, hvlen, hrclen⟩ := h
  unfold finalizeRefCore
  by_cases hzero : decRC (st.goRefCounts.get id) = .fin 0
  · rw [if_pos hzero]
    have hid : 7 ≤ id := by
      by_contra hlt
      rw [hrc id (by omega)] at hzero
      exact absurd hzero (by simp [decRC])
    refine ⟨?_, ?_, ?_, ?_, ?_⟩
    · intro i hi
      rw [JsArr.get_set_ne _ _ _ _ (by omega)]
      exact hval i hi
    · intro i hi
      rw [JsArr.get_set_ne _ _ _ _ (by omega)]
      exact hrc i hi
    · intro i hi
      rcases List.mem_append.1 hi with hmem | hmem
      · exact hpool i hmem
      · simp at hmem
        omega
    · simp only [JsArr.length_set]
      omega
    · simp only [JsArr.length_set]
      omega
  · rw [if_neg hzero]
    refine ⟨hval, ?_, hpool, hvlen, ?_⟩
    · intro i hi
      by_cases hii : i = id
      · subst hii
        rw [JsArr.get_set_self, hrc i hi]
        rfl
      · rw [JsArr.get_set_ne _ _ _ _ hii]
        exact hrc i hi
    · simp only [JsArr.length_set]
      omega

theorem storeRef_sentinels (st : GoState) (addr : Nat) (v : JSVal) (h : SentinelsOK st) :
    SentinelsOK (storeRefValue st addr v) :=
  intern_sentinels st v h

theorem storeValue_sentinels (st : GoState) (addr : Nat) (v : JSVal) (h : SentinelsOK st) :
    SentinelsOK (storeValue st addr v) := by
  cases v with
  | num q =>
      by_cases hq : q = 0
      · simpa [storeValue, hq] using storeRef_sentinels st addr (.num q) h
      · simpa [storeValue, hq] using h
  | undefV => exact h
  | nanV => exact h
  | nullV => exact storeRef_sentinels st addr _ h
  | boolV b => exact storeRef_sentinels st addr _ h
  | str s => exact storeRef_sentinels st addr _ h
  | sym n => exact storeRef_sentinels st addr _ h
  | fn n => exact storeRef_sentinels st addr _ h
  | obj n => exact storeRef_sentinels st addr _ h
  | u8 d => exact storeRef_sentinels st addr _ h
  | globalObj => exact storeRef_sentinels st addr _ h
  | bridge => exact storeRef_sentinels st addr _ h

theorem resumeStep_sentinels (st : GoState) (h : SentinelsOK st) :
    SentinelsOK (resumeStep st) := by
  unfold resumeStep
  split <;> exact h

theorem step_sentinels (st : GoState) (op : Op) (h : SentinelsOK st) :
    SentinelsOK (step st op) := by
  cases op with
  | store addr v => exact storeValue_sentinels st addr v h
  | release id => exact release_sentinels st id h
  | schedule sp => exact h
  | clearT sp => exact h
  | fire => exact resumeStep_sentinels st h
  | exitI sp => exact h
  | wrapper id recv args => exact resumeStep_sentinels _ h

theorem applyOps_sentinels (ops : List Op) : SentinelsOK (applyOps initState ops) := by
  suffices hgen : ∀ (st : GoState), SentinelsOK st → SentinelsOK (ops.foldl step st) from
    hgen initState sentinelsOK_init
  induction ops with
  | nil => exact fun st h => h
  | cons op rest ih => exact fun st h => ih (step st op) (step_sentinels st op h)

/-- C9: for the lifetime of a bridge instance - any sequence of modelled
operations after construction - ids 0 through 6 still resolve to the fixed
sentinels NaN, 0, null, true, false, the global object and the bridge;
releasing a sentinel id is a complete no-op (its refcount is infinite, so
the decrement and the zero test both leave everything unchanged); and a
sentinel id is never pushed onto the free pool, hence never handed out
again by intern. -/
theorem c9_sentinel_stability (ops : List Op) :
    (∀ i, i < 7 → resolve (applyOps initState ops) i = sentinel i) ∧
    (∀ i, i < 7 →
        finalizeRefCore (applyOps initState ops) i = applyOps initState ops) ∧
    (∀ i, i ∈ (applyOps initState ops).idPool → 7 ≤ i) := by
  have h := applyOps_sentinels ops
  refine ⟨fun i hi => h.1 i hi, ?_, h.2.2.1⟩
  intro i hi
  unfold finalizeRefCore
  rw [h.2.1 i hi]
  rw [if_neg (by simp [decRC])]
  have hset : (applyOps initState ops).goRefCounts.set i (decRC .inf)
      = (applyOps initState ops).goRefCounts := by
    show (applyOps initState ops).goRefCounts.set i .inf = _
    conv_lhs => rw [← h.2.1 i hi]
    exact JsArr.set_get_self _ i (lt_of_lt_of_le hi h.2.2.2.2)
  rw [hset]

theorem c9_sentinel_stability_witness :
    resolve (applyOps initState [.store 0 (.str "a"), .release 7]) 5 = sentinel 5 ∧
    finalizeRefCore (applyOps initState [.store 0 (.str "a"), .release 7]) 3
      = applyOps initState [.store 0 (.str "a"), .release 7] :=
  ⟨(c9_sentinel_stability [.store 0 (.str "a"), .release 7]).1 5 (by omega),
   (c9_sentinel_stability [.store 0 (.str "a"), .release 7]).2.1 3 (by omega)⟩

/-! ### Claim C10: the scheduled-timer map -/

theorem scheduledTimeouts_intern (st : GoState) (v : JSVal) :
    (intern st v).1.scheduledTimeouts = st.scheduledTimeouts := by
  unfold intern
  split <;> rfl

theorem scheduledTimeouts_storeValue (st : GoState) (addr : Nat) (v : JSVal) :
    (storeValue st addr v).scheduledTimeouts = st.scheduledTimeouts := by
  have href : ∀ w, (storeRefValue st addr w).scheduledTimeouts = st.scheduledTimeouts :=
    fun w => scheduledTimeouts_intern st w
  cases v with
  | num q =>
      by_cases hq : q = 0
      · simpa [storeValue, hq] using href (.num q)
      · simp [storeValue, hq]
  | undefV => rfl
  | nanV => rfl
  | nullV => exact href _
  | boolV b => exact href _
  | str s => exact href _
  | sym n => exact href _
  | fn n => exact href _
  | obj n => exact href _
  | u8 d => exact href _
  | globalObj => exact href _
  | bridge => exact href _

theorem scheduledTimeouts_finalize (st : GoState) (id : Nat) :
    (finalizeRefCore st id).scheduledTimeouts = st.scheduledTimeouts := by
  unfold finalizeRefCore
  by_cases h : decRC (st.goRefCounts.get id) = .fin 0
  · rw [if_pos h]
  · rw [if_neg h]

theorem scheduledTimeouts_resumeStep (st : GoState) :
    (resumeStep st).scheduledTimeouts = st.scheduledTimeouts := by
  unfold resumeStep
  split <;> rfl

/-- C10: a timer id allocated by the schedule-timer import is in the map
after scheduling and is still there after its timeout fires (the callback
only calls _resume); and across every modelled operation, the only one that
ever removes an entry from the scheduled-timer map is the clear-timeout
import, and then only the id it reads from its frame. -/
theorem c10_timer_map :
    (∀ st sp, st.nextCallbackTimeoutID ∈ (scheduleTimeout st sp).scheduledTimeouts ∧
        st.nextCallbackTimeoutID ∈ (fireTimer (scheduleTimeout st sp)).scheduledTimeouts) ∧
    (∀ st op id, id ∈ st.scheduledTimeouts →
        id ∈ (step st op).scheduledTimeouts ∨
          ∃ sp, op = .clearT sp ∧ (readI32 st.mem (sp + 8)).toNat = id) := by
  constructor
  · intro st sp
    constructor
    · simp [scheduleTimeout]
    · rw [fireTimer, scheduledTimeouts_resumeStep]
      simp [scheduleTimeout]
  · intro st op id hid
    cases op with
    | store addr v =>
        left
        rw [step, scheduledTimeouts_storeValue]
        exact hid
    | release rid =>
        left
        rw [step, scheduledTimeouts_finalize]
        exact hid
    | schedule sp =>
        left
        simp only [step, scheduleTimeout, List.mem_append]
        exact Or.inl hid
    | clearT sp =>
        by_cases hc : (readI32 st.mem (sp + 8)).toNat = id
        · exact Or.inr ⟨sp, rfl, hc⟩
        · left
          show id ∈ (clearTimeoutImp st sp).scheduledTimeouts
          unfold clearTimeoutImp
          exact (List.mem_erase_of_ne (fun he => hc he.symm)).2 hid
    | fire =>
        left
        rw [step, fireTimer, scheduledTimeouts_resumeStep]
        exact hid
    | exitI sp =>
        left
        exact hid
    | wrapper i r a =>
        left
        rw [step, funcWrapperCall, scheduledTimeouts_resumeStep]
        exact hid

theorem c10_timer_map_witness :
    1 ∈ (scheduleTimeout initState 100).scheduledTimeouts ∧
    1 ∈ (step (scheduleTimeout initState 100) .fire).scheduledTimeouts := by
  refine ⟨(c10_timer_map.1 initState 100).1, ?_⟩
  rcases c10_timer_map.2 (scheduleTimeout initState 100) .fire 1 (by decide) with h | ⟨sp, hsp, _⟩
  · exact h
  · exact Op.noConfusion hsp

/-! ### Claim C1: what wasmExit actually does -/

/-- C1 counterexample: with three timers scheduled, firing the exit import
marks the bridge exited but leaves all three entries in the scheduled-timer
map and cancels no browser timer, contradicting the claim that exit cancels
every outstanding scheduled timer. -/
theorem c1_counterexample :
    (applyOps initState
        [.schedule 100, .schedule 100, .schedule 100, .exitI 200]).exited = true ∧
    (applyOps initState
        [.schedule 100, .schedule 100, .schedule 100, .exitI 200]).scheduledTimeouts
      = [1, 2, 3] ∧
    (applyOps initState
        [.schedule 100, .schedule 100, .schedule 100, .exitI 200]).cancelledHandles
      = [] := by decide

/-- C1 (amended): the exit import marks ExecutionState exited and resolves
the pending run-lifecycle future with the supplied code, but cancels no
scheduled timer: the map and the set of cancelled browser timers are left
untouched.  A timer that fires after exit runs its callback, whose _resume
call throws AlreadyExited before the guest resume export is entered. -/
theorem c1_exit (st : GoState) (sp : Nat) (h : st.exitPromise = .pending) :
    (wasmExit st sp).exited = true ∧
    (wasmExit st sp).exitPromise = .resolved (some (readI32 st.mem (sp + 8))) ∧
    (wasmExit st sp).scheduledTimeouts = st.scheduledTimeouts ∧
    (wasmExit st sp).cancelledHandles = st.cancelledHandles ∧
    (fireTimer (wasmExit st sp)).resumeLog
      = (wasmExit st sp).resumeLog ++ [.threwAlreadyExited] := by
  refine ⟨rfl, ?_, rfl, rfl, ?_⟩
  · simp [wasmExit, resolveExit, h]
  · simp [fireTimer, resumeStep, wasmExit]

theorem c1_exit_witness :
    (wasmExit { initState with exitPromise := .pending } 0).exited = true ∧
    (wasmExit { initState with exitPromise := .pending } 0).exitPromise
      = .resolved (some 0) := by
  have h := c1_exit { initState with exitPromise := .pending } 0 rfl
  exact ⟨h.1, by simpa using h.2.1⟩

/-! ### Claim C5: the pending-call record -/

/-- C5 counterexample: with a pending event already outstanding and
unconsumed, triggering a host-to-guest callback silently replaces the
record with the new event and proceeds to invoke resume - the old record is
lost and nothing is rejected or queued. -/
theorem c5_counterexample :
    (funcWrapperCall { initState with pendingEvent := some ⟨1, .undefV, []⟩ }
        2 .undefV [.num 1]).pendingEvent = some ⟨2, .undefV, [.num 1]⟩ ∧
    (funcWrapperCall { initState with pendingEvent := some ⟨1, .undefV, []⟩ }
        2 .undefV [.num 1]).resumeLog = [.invokedGuest] := by decide

/-- C5 (amended): the wrapper produced by _makeFuncWrapper unconditionally
overwrites _pendingEvent with the new record, whatever was there before,
and then calls _resume; there is no rejection or queueing in this code.
At-most-one-pending-call relies on the guest consuming the event
synchronously during resume, not on any check here. -/
theorem c5_pending_overwrite (st : GoState) (id : Nat) (recv : JSVal) (args : List JSVal) :
    (funcWrapperCall st id recv args).pendingEvent = some ⟨id, recv, args⟩ := by
  unfold funcWrapperCall resumeStep
  split <;> rfl

/-! ### Claim C4: the catch-and-flag convention of call, invoke and new -/

theorem loadValue_write_other (st : GoState) (a b : Nat) (x : MemVal) (h : b ≠ a) :
    loadValue { st with mem := writeMem st.mem b x } a = loadValue st a := by
  unfold loadValue
  rw [readSlot_write_ne st.mem a b x h]
  cases readSlot st.mem a with
  | float q => rfl
  | boxed tag lo => rfl

/-- Storing a value at a and a flag byte at b leaves the flag readable and
the value decodable. -/
theorem storeWithFlag_spec (st : GoState) (a : Nat) (v : JSVal) (b : Nat) (flag : Nat)
    (hne : b ≠ a) (h : TableOK st) :
    readByte (writeMem (storeValue st a v).mem b (.byte flag)) b = flag ∧
    loadValue { storeValue st a v with
      mem := writeMem (storeValue st a v).mem b (.byte flag) } a = v := by
  constructor
  · exact readByte_write_self _ b flag
  · rw [loadValue_write_other (storeValue st a v) a b _ hne]
    exact store_load_roundtrip st a v h

/-- C4: valueCall, valueInvoke and valueNew catch any exception raised by
the operation, marshal the outcome (the result, or the thrown value) into
the result slot, and write a 1-byte success flag at the byte immediately
after the 8-byte result slot - sp+64 after slot sp+56 for call, sp+48 after
slot sp+40 for invoke and construct - with value 1 on success and 0 on a
throw; the import itself always returns normally, never propagating a
host-level exception. -/
theorem c4_call_flags (H : HostSem) (st : GoState) (sp : Nat) (h : TableOK st) :
    (∃ st1, valueCall H st sp = .ok st1 ∧
      readByte st1.mem (sp + 64)
        = (match callAttempt H st sp with | .ok _ => 1 | .error _ => 0) ∧
      loadValue st1 (sp + 56)
        = (match callAttempt H st sp with | .ok r => r | .error e => e)) ∧
    (∃ st1, valueInvoke H st sp = .ok st1 ∧
      readByte st1.mem (sp + 48)
        = (match invokeAttempt H st sp with | .ok _ => 1 | .error _ => 0) ∧
      loadValue st1 (sp + 40)
        = (match invokeAttempt H st sp with | .ok r => r | .error e => e)) ∧
    (∃ st1, valueNew H st sp = .ok st1 ∧
      readByte st1.mem (sp + 48)
        = (match newAttempt H st sp with | .ok _ => 1 | .error _ => 0) ∧
      loadValue st1 (sp + 40)
        = (match newAttempt H st sp with | .ok r => r | .error e => e)) := by
  refine ⟨?_, ?_, ?_⟩
  · cases hout : callAttempt H st sp with
    | ok r =>
        refine ⟨_, by rw [valueCall, hout], ?_, ?_⟩
        · exact (storeWithFlag_spec st (sp + 56) r (sp + 64) 1 (by omega) h).1
        · exact (storeWithFlag_spec st (sp + 56) r (sp + 64) 1 (by omega) h).2
    | error e =>
        refine ⟨_, by rw [valueCall, hout], ?_, ?_⟩
        · exact (storeWithFlag_spec st (sp + 56) e (sp + 64) 0 (by omega) h).1
        · exact (storeWithFlag_spec st (sp + 56) e (sp + 64) 0 (by omega) h).2
  · cases hout : invokeAttempt H st sp with
    | ok r =>
        refine ⟨_, by rw [valueInvoke, hout], ?_, ?_⟩
        · exact (storeWithFlag_spec st (sp + 40) r (sp + 48) 1 (by omega) h).1
        · exact (storeWithFlag_spec st (sp + 40) r (sp + 48) 1 (by omega) h).2
    | error e =>
        refine ⟨_, by rw [valueInvoke, hout], ?_, ?_⟩
        · exact (storeWithFlag_spec st (sp + 40) e (sp + 48) 0 (by omega) h).1
        · exact (storeWithFlag_spec st (sp + 40) e (sp + 48) 0 (by omega) h).2
  · cases hout : newAttempt H st sp with
    | ok r =>
        refine ⟨_, by rw [valueNew, hout], ?_, ?_⟩
        · exact (storeWithFlag_spec st (sp + 40) r (sp + 48) 1 (by omega) h).1
        · exact (storeWithFlag_spec st (sp + 40) r (sp + 48) 1 (by omega) h).2
    | error e =>
        refine ⟨_, by rw [valueNew, hout], ?_, ?_⟩
        · exact (storeWithFlag_spec st (sp + 40) e (sp + 48) 0 (by omega) h).1
        · exact (storeWithFlag_spec st (sp + 40) e (sp + 48) 0 (by omega) h).2

theorem c4_call_flags_witness :
    ∃ st1, valueCall stdSem initState 0 = .ok st1 ∧
      readByte st1.mem 64 = 0 ∧ loadValue st1 56 = .str "TypeError" := by
  obtain ⟨⟨st1, he, hb, hl⟩, -, -⟩ := c4_call_flags stdSem initState 0 tableOK_init
  have hout : callAttempt stdSem initState 0 = .error (.str "TypeError") := rfl
  rw [hout] at hb hl
  exact ⟨st1, he, hb, hl⟩

/-! ### Claim C6: get-length and property access on ill-shaped values -/

/-- C6 counterexample: get-length applied to a value with no usable length
(here the undefined decoded from zeroed memory) is not reported through any
success flag - valueLength and valueGet have no try/catch and write no flag
byte - instead the TypeError escapes as a host-level exception from the
import. -/
theorem c6_counterexample :
    valueLength stdSem initState 100 = .error (.str "TypeError") ∧
    valueGet stdSem initState 100 = .error (.str "TypeError") := by
  exact ⟨rfl, rfl⟩

/-- C6 (amended): valueLength and valueGet perform the underlying operation
directly, with no try/catch and no success-flag convention: when the
operand lacks the requested shape the thrown value propagates to the host
as an uncaught exception, and on success valueLength writes only the i64
length at sp+16 - no flag byte anywhere. -/
theorem c6_no_flag (H : HostSem) (st : GoState) (sp : Nat) :
    (∀ e, H.dotLength (loadValue st (sp + 8)) = .error e →
        valueLength H st sp = .error e) ∧
    (∀ n, H.dotLength (loadValue st (sp + 8)) = .ok n →
        ∃ st1, valueLength H st sp = .ok st1 ∧ readI64 st1.mem (sp + 16) = n ∧
          ∀ a, a ≠ sp + 16 → readByte st1.mem a = readByte st.mem a) ∧
    (∀ e, H.reflectGet (loadValue st (sp + 8)) (loadString st (sp + 16)) = .error e →
        valueGet H st sp = .error e) := by
  refine ⟨?_, ?_, ?_⟩
  · intro e he
    rw [valueLength, he]
  · intro n hn
    refine ⟨_, by rw [valueLength, hn], readI64_write_self _ _ _, ?_⟩
    intro a ha
    exact readByte_write_ne st.mem a (sp + 16) _ (fun hc => ha hc.symm)
  · intro e he
    rw [valueGet, he]

theorem c6_no_flag_witness :
    valueLength stdSem initState 40 = .error (.str "TypeError") ∧
    valueGet stdSem initState 40 = .error (.str "TypeError") :=
  ⟨(c6_no_flag stdSem initState 40).1 _ rfl,
   (c6_no_flag stdSem initState 40).2.2 _ rfl⟩

/-! ### Claim C7: copy-bytes in both directions -/

theorem readBytes_length (m : Mem) (a len : Nat) : (readBytes m a len).length = len := by
  simp [readBytes]

/-- C7 counterexample: with a stale count of 7 already sitting in the i64
result cell at sp+40 and a non-byte-array source, copy-bytes-guest-to-host
writes only the failure flag: the count cell still reads 7 afterwards, so
the import does not report zero bytes copied. -/
theorem c7_counterexample :
    (∃ st1, copyBytesToGo { initState with mem := [(140, .i64 7)] } 100 = .ok st1 ∧
      readByte st1.mem 148 = 0 ∧ readI64 st1.mem 140 = 7) := by
  refine ⟨_, rfl, by decide, by decide⟩

/-- C7 (amended): when the checked operand is byte-array-like, both copy
imports copy exactly min(destination length, source length) bytes, report
that count in the i64 cell at sp+40 and set the success flag at sp+48; when
it is not, they write the failure flag at sp+48 and nothing else - in
particular the count cell is left unwritten, not zeroed - and do not
throw. -/
theorem c7_copy_bytes :
    (∀ (st : GoState) (sp dstPtr dstLen : Nat) (data : List Nat),
        readI64 st.mem (sp + 8) = (dstPtr : Int) →
        readI64 st.mem (sp + 16) = (dstLen : Int) →
        loadValue st (sp + 32) = .u8 data →
        dstPtr + min dstLen data.length ≤ sp + 40 →
        ∃ st1, copyBytesToGo st sp = .ok st1 ∧
          readI64 st1.mem (sp + 40) = (↑(min dstLen data.length) : Int) ∧
          readByte st1.mem (sp + 48) = 1 ∧
          ∀ i, i < min dstLen data.length →
            readByte st1.mem (dstPtr + i) = data.getD i 0) ∧
    (∀ st sp, (∀ l, loadValue st (sp + 32) ≠ .u8 l) →
        ∃ st1, copyBytesToGo st sp = .ok st1 ∧
          readByte st1.mem (sp + 48) = 0 ∧
          ∀ a, a ≠ sp + 48 → readCell st1.mem a = readCell st.mem a) ∧
    (∀ (st : GoState) (sp srcPtr srcLen : Nat) (data : List Nat),
        readI64 st.mem (sp + 16) = (srcPtr : Int) →
        readI64 st.mem (sp + 24) = (srcLen : Int) →
        loadValue st (sp + 8) = .u8 data →
        ∃ st1 out, copyBytesToJS st sp = .ok (st1, some out) ∧
          out.length = data.length ∧
          out.take (min data.length srcLen)
            = (readBytes st.mem srcPtr srcLen).take (min data.length srcLen) ∧
          readI64 st1.mem (sp + 40) = (↑(min data.length srcLen) : Int) ∧
          readByte st1.mem (sp + 48) = 1) ∧
    (∀ st sp, (∀ l, loadValue st (sp + 8) ≠ .u8 l) →
        ∃ st1, copyBytesToJS st sp = .ok (st1, none) ∧
          readByte st1.mem (sp + 48) = 0 ∧
          ∀ a, a ≠ sp + 48 → readCell st1.mem a = readCell st.mem a) := by
  refine ⟨?_, ?_, ?_, ?_⟩
  · intro st sp dstPtr dstLen data h8 h16 hsrc hdisj
    have heval : copyBytesToGo st sp = .ok { st with mem := writeMem (writeMem (writeBytes st.mem dstPtr (data.take (min dstLen data.length))) (sp + 40) (.i64 ↑(min dstLen data.length))) (sp + 48) (.byte 1) } := by
      rw [copyBytesToGo, h8, h16, hsrc]
      rfl
    refine ⟨_, heval, ?_, ?_, ?_⟩
    · show readI64 (writeMem (writeMem (writeBytes st.mem dstPtr
          (data.take (min dstLen data.length))) (sp + 40) (.i64 ↑(min dstLen data.length)))
          (sp + 48) (.byte 1)) (sp + 40) = (↑(min dstLen data.length) : Int)
      rw [readI64_write_ne _ _ _ _ (by omega), readI64_write_self]
    · exact readByte_write_self _ _ _
    · intro i hi
      show readByte (writeMem (writeMem (writeBytes st.mem dstPtr
          (data.take (min dstLen data.length))) (sp + 40) (.i64 ↑(min dstLen data.length)))
          (sp + 48) (.byte 1)) (dstPtr + i) = data.getD i 0
      rw [readByte_write_ne _ _ _ _ (by omega), readByte_write_ne _ _ _ _ (by omega)]
      have hlen : i < (data.take (min dstLen data.length)).length := by
        simp only [List.length_take]
        omega
      rw [readByte_writeBytes _ _ _ _ hlen]
      have hde : i < data.length := by omega
      simp [List.getD, List.getElem?_take, hi, hde]
  · intro st sp hne
    have heval : copyBytesToGo st sp
        = .ok { st with mem := writeMem st.mem (sp + 48) (.byte 0) } := by
      rw [copyBytesToGo]
      cases hv : loadValue st (sp + 32) with
      | u8 l => exact absurd hv (hne l)
      | undefV => rfl
      | nullV => rfl
      | boolV b => rfl
      | nanV => rfl
      | num q => rfl
      | str s => rfl
      | sym n => rfl
      | fn n => rfl
      | obj n => rfl
      | globalObj => rfl
      | bridge => rfl
    refine ⟨_, heval, readByte_write_self _ _ _, ?_⟩
    intro a ha
    exact readCell_write_ne _ _ _ _ (fun hc => ha hc.symm)
  · intro st sp srcPtr srcLen data h16 h24 hdst
    have heval : copyBytesToJS st sp = .ok ({ st with mem := writeMem (writeMem st.mem (sp + 40) (.i64 ↑(min data.length srcLen))) (sp + 48) (.byte 1) }, some ((readBytes st.mem srcPtr srcLen).take (min data.length srcLen) ++ data.drop (min data.length srcLen))) := by
      rw [copyBytesToJS, h16, h24, hdst]
      rfl
    refine ⟨_, _, heval, ?_, ?_, ?_, ?_⟩
    · simp only [List.length_append, List.length_take, List.length_drop, readBytes_length]
      omega
    · rw [List.take_left' (by simp only [List.length_take, readBytes_length]; omega)]
    · show readI64 (writeMem (writeMem st.mem (sp + 40) (.i64 ↑(min data.length srcLen)))
          (sp + 48) (.byte 1)) (sp + 40) = (↑(min data.length srcLen) : Int)
      rw [readI64_write_ne _ _ _ _ (by omega), readI64_write_self]
    · exact readByte_write_self _ _ _
  · intro st sp hne
    have heval : copyBytesToJS st sp
        = .ok ({ st with mem := writeMem st.mem (sp + 48) (.byte 0) }, none) := by
      rw [copyBytesToJS]
      cases hv : loadValue st (sp + 8) with
      | u8 l => exact absurd hv (hne l)
      | undefV => rfl
      | nullV => rfl
      | boolV b => rfl
      | nanV => rfl
      | num q => rfl
      | str s => rfl
      | sym n => rfl
      | fn n => rfl
      | obj n => rfl
      | globalObj => rfl
      | bridge => rfl
    refine ⟨_, heval, readByte_write_self _ _ _, ?_⟩
    intro a ha
    exact readCell_write_ne _ _ _ _ (fun hc => ha hc.symm)

/-- A concrete frame for the copy-bytes witness: destination pointer 3 and
length 2 in the i64 argument cells, the source slot NaN-boxed to handle 7,
and handle 7 bound to the byte array 9, 8, 7. -/
def c7State : GoState :=
  { initState with
    mem := [(108, MemVal.i64 3), (116, MemVal.i64 2), (132, MemVal.slot (.boxed 1 7))],
    values := initState.values.set 7 (.u8 [9, 8, 7]) }

theorem c7_copy_bytes_witness :
    ∃ st1, copyBytesToGo c7State 100 = .ok st1 ∧
      readI64 st1.mem 140 = 2 ∧ readByte st1.mem 148 = 1 ∧
      readByte st1.mem 3 = 9 ∧ readByte st1.mem 4 = 8 := by
  obtain ⟨st1, he, hc, hf, hb⟩ :=
    c7_copy_bytes.1 c7State 100 3 2 [9, 8, 7]
      (by decide) (by decide) (by decide) (by decide)
  refine ⟨st1, he, by simpa using hc, hf, ?_, ?_⟩
  · simpa using hb 0 (by decide)
  · simpa using hb 1 (by decide)

/-! ### Claim C8: what run passes to the guest entry export -/

/-- C8: evaluating run on the default argument vector of a single string
"js".  The string is written zero-terminated at the fixed scratch offset
4096, the sentinel slots are re-seeded, argc = 1 is computed and stored as
an i64 at 4104 with the argv[0] pointer at 4112, and the caller is left
suspended on the now-pending exit promise; but the entry export is invoked
with the two ADDRESSES (4104, 4112), not with the computed argc = 1 and an
argv pointer, so its first argument differs from the argument count the
ABI requires. -/
theorem c8_run_entry_args :
    (runGo initState [] ["js"]).entryArgs = (4104, 4112) ∧
    (runGo initState [] ["js"]).argc = 1 ∧
    (runGo initState [] ["js"]).entryArgs.1 ≠ (runGo initState [] ["js"]).argc ∧
    readByte (runGo initState [] ["js"]).state.mem 4096 = 106 ∧
    readByte (runGo initState [] ["js"]).state.mem 4097 = 115 ∧
    readByte (runGo initState [] ["js"]).state.mem 4098 = 0 ∧
    readI64 (runGo initState [] ["js"]).state.mem 4104 = 1 ∧
    readI64 (runGo initState [] ["js"]).state.mem 4112 = 4096 ∧
    resolve (runGo initState [] ["js"]).state 0 = .nanV ∧
    (runGo initState [] ["js"]).state.exitPromise = .pending := by decide

end ModernWasm
